import Mathlib

/-!
Shallow embedding of the MatchUpGame contract: user registry, game ledger,
points policy, date encoder, leaderboard and rank queries, together with
proofs of the specified properties.
-/

namespace MatchUp

/-- Identities (addresses in the original system) are modelled as naturals;
the zero address is the default value of an uninitialised slot. -/
abbrev Address := Nat

/-- User profile record, one per registered address. -/
structure User where
  displayName : String
  totalPoints : Nat
  gamesPlayed : Nat
  gamesWon : Nat
  bestTime : Nat
  joinedAt : Nat
  lastGameAt : Nat
  existsFlag : Bool
deriving Repr, DecidableEq

/-- Default (zeroed) user record, the value of an unwritten mapping slot. -/
def defaultUser : User :=
  { displayName := "", totalPoints := 0, gamesPlayed := 0, gamesWon := 0,
    bestTime := 0, joinedAt := 0, lastGameAt := 0, existsFlag := false }

/-- One recorded game, append-only, keyed by gameId. -/
structure GameResult where
  gameId : Nat
  player : Address
  won : Bool
  difficulty : Nat
  timeSpent : Nat
  pointsEarned : Nat
  timestamp : Nat
  isDailyChallenge : Bool
deriving Repr, DecidableEq

/-- Default (zeroed) game result, the value of an unwritten mapping slot. -/
def defaultGameResult : GameResult :=
  { gameId := 0, player := 0, won := false, difficulty := 0, timeSpent := 0,
    pointsEarned := 0, timestamp := 0, isDailyChallenge := false }

/-- Daily challenge record for one (identity, date-key) pair. -/
structure DailyChallenge where
  date : Nat
  difficulty : Nat
  completed : Bool
  pointsEarned : Nat
  completedAt : Nat
deriving Repr, DecidableEq

/-- Default (zeroed) daily challenge record. -/
def defaultDailyChallenge : DailyChallenge :=
  { date := 0, difficulty := 0, completed := false, pointsEarned := 0, completedAt := 0 }

/-- The whole contract state: the four mappings, the address array and the
two global counters.  Solidity mappings are total functions returning the
zeroed record on unwritten keys. -/
structure ContractState where
  users : Address → User
  gameResults : Nat → GameResult
  dailyChallenges : Address → Nat → DailyChallenge
  userGameIds : Address → List Nat
  userAddresses : List Address
  totalGames : Nat
  totalUsers : Nat

/-- State at deployment: every mapping slot holds its zeroed default. -/
def initState : ContractState :=
  { users := fun _ => defaultUser,
    gameResults := fun _ => defaultGameResult,
    dailyChallenges := fun _ _ => defaultDailyChallenge,
    userGameIds := fun _ => [],
    userAddresses := [],
    totalGames := 0,
    totalUsers := 0 }

def EASY_POINTS : Nat := 50
def MEDIUM_POINTS : Nat := 100
def HARD_POINTS : Nat := 150
def DAILY_MULTIPLIER : Nat := 2

/-- The three error kinds surfaced by require failures. -/
inductive GameError where
  | UserNotFound
  | InvalidInput
  | OutOfRange
deriving Repr, DecidableEq

/-- Point-update of the users mapping. -/
def setUser (users : Address → User) (a : Address) (u : User) : Address → User :=
  fun b => if b = a then u else users b

/-- Date encoder: converts a block timestamp to the approximate YYYYMMDD
bucket used by daily challenges (fixed 365-day year, 30-day months). -/
def getCurrentDate (now : Nat) : Nat :=
  let daysSinceEpoch := now / 86400
  let year := 2024
  let dayOfYear := daysSinceEpoch % 365
  let month0 := dayOfYear / 30 + 1
  let day0 := dayOfYear % 30 + 1
  let month := if month0 > 12 then 12 else month0
  let day := if day0 > 31 then 31 else day0
  year * 10000 + month * 100 + day

/-- Points policy: losses earn 0; wins earn the base reward of the
difficulty, doubled for daily challenges. -/
def computePoints (won : Bool) (difficulty : Nat) (isDaily : Bool) : Nat :=
  if won then
    let base := if difficulty = 0 then EASY_POINTS
                else if difficulty = 1 then MEDIUM_POINTS
                else HARD_POINTS
    if isDaily then base * DAILY_MULTIPLIER else base
  else 0

/-- registerUser: validates the display name (UTF-8 byte length in 1..50),
creates a zeroed profile for a new identity or overwrites only the display
name of an existing one. -/
def registerUser (s : ContractState) (sender : Address) (name : String) (now : Nat) :
    Except GameError ContractState :=
  if name.utf8ByteSize = 0 then .error .InvalidInput
  else if 50 < name.utf8ByteSize then .error .InvalidInput
  else if (s.users sender).existsFlag = false then
    .ok { s with
      users := setUser s.users sender
        { displayName := name, totalPoints := 0, gamesPlayed := 0, gamesWon := 0,
          bestTime := 0, joinedAt := now, lastGameAt := 0, existsFlag := true },
      userAddresses := s.userAddresses ++ [sender],
      totalUsers := s.totalUsers + 1 }
  else
    .ok { s with
      users := setUser s.users sender { s.users sender with displayName := name } }

/-- recordGame: checks the userExists and validDifficulty modifiers, then
bumps the game counter, computes points, updates the user aggregates,
appends the immutable GameResult and, for a won daily challenge,
overwrites the DailyChallenge record of the current date. -/
def recordGame (s : ContractState) (sender : Address) (won : Bool) (difficulty : Nat)
    (timeSpent : Nat) (isDaily : Bool) (now : Nat) : Except GameError ContractState :=
  if (s.users sender).existsFlag = false then .error .UserNotFound
  else if 2 < difficulty then .error .InvalidInput
  else
    let totalGames1 := s.totalGames + 1
    let points := computePoints won difficulty isDaily
    let u0 := s.users sender
    let u1 : User := { u0 with gamesPlayed := u0.gamesPlayed + 1, lastGameAt := now }
    let u2 : User :=
      if won then
        { u1 with gamesWon := u1.gamesWon + 1,
                  totalPoints := u1.totalPoints + points,
                  bestTime :=
                    if 0 < timeSpent ∧ (u1.bestTime = 0 ∨ timeSpent < u1.bestTime)
                    then timeSpent else u1.bestTime }
      else u1
    let result : GameResult :=
      { gameId := totalGames1, player := sender, won := won, difficulty := difficulty,
        timeSpent := if won then timeSpent else 0, pointsEarned := points,
        timestamp := now, isDailyChallenge := isDaily }
    let s1 : ContractState :=
      { s with
        totalGames := totalGames1,
        users := setUser s.users sender u2,
        gameResults := fun g => if g = totalGames1 then result else s.gameResults g,
        userGameIds := fun a =>
          if a = sender then s.userGameIds sender ++ [totalGames1] else s.userGameIds a }
    if won ∧ isDaily then
      let today := getCurrentDate now
      .ok { s1 with
        dailyChallenges := fun a d =>
          if a = sender ∧ d = today then
            { date := today, difficulty := difficulty, completed := true,
              pointsEarned := points, completedAt := now }
          else s1.dailyChallenges a d }
    else .ok s1

/-- getUser: returns the stored record (the zeroed default for an
unregistered identity); total, read-only. -/
def getUser (s : ContractState) (a : Address) : User :=
  s.users a

/-- getUserGames: paginated game history of one identity, failing when the
offset is at or beyond the end of the per-identity game-id list. -/
def getUserGames (s : ContractState) (u : Address) (offset limit : Nat) :
    Except GameError (List GameResult) :=
  let gameIds := s.userGameIds u
  if offset < gameIds.length then
    let e := if gameIds.length < offset + limit then gameIds.length else offset + limit
    .ok (((gameIds.drop offset).take (e - offset)).map s.gameResults)
  else .error .OutOfRange

/-- Inner while-loop of the leaderboard insertion sort: starting at slot j,
shift entries one slot down while the new score strictly exceeds the score
above, returning the final arrays and insertion slot. -/
def lbShift (len pts : Nat) : Nat → List Address → List Nat → List Address × List Nat × Nat
  | 0, tu, tp => (tu, tp, 0)
  | j + 1, tu, tp =>
    if tp.getD j 0 < pts then
      lbShift len pts j
        (if j + 1 < len then tu.set (j + 1) (tu.getD j 0) else tu)
        (if j + 1 < len then tp.set (j + 1) (tp.getD j 0) else tp)
    else (tu, tp, j + 1)

/-- One iteration of the leaderboard outer loop: run the shift loop for the
candidate at index i, then store it at the freed slot if in range. -/
def lbStep (len : Nat) (a : Address) (pts : Nat) (i : Nat)
    (tu : List Address) (tp : List Nat) : List Address × List Nat :=
  match lbShift len pts i tu tp with
  | (tu1, tp1, j) =>
    ((if j < len then tu1.set j a else tu1), (if j < len then tp1.set j pts else tp1))

/-- Outer loop of getLeaderboard: walk the registration-order address list
with index i, stopping at the limit. -/
def lbMain (users : Address → User) (limit len : Nat) :
    List Address → Nat → List Address → List Nat → List Address × List Nat
  | [], _, tu, tp => (tu, tp)
  | a :: rest, i, tu, tp =>
    if i < limit then
      match lbStep len a (users a).totalPoints i tu tp with
      | (tu2, tp2) => lbMain users limit len rest (i + 1) tu2 tp2
    else (tu, tp)

/-- getLeaderboard: validates the limit, then insertion-sorts the first
limit registration-ordered identities into two arrays of length
min(totalUsers, limit). -/
def getLeaderboard (s : ContractState) (limit : Nat) :
    Except GameError (List Address × List Nat) :=
  if 0 < limit ∧ limit ≤ 100 then
    let len := if s.totalUsers < limit then s.totalUsers else limit
    .ok (lbMain s.users limit len s.userAddresses 0
          (List.replicate len 0) (List.replicate len 0))
  else .error .InvalidInput

/-- isDailyChallengeCompleted: reads the completed flag of one
(identity, date-key) slot. -/
def isDailyChallengeCompleted (s : ContractState) (u : Address) (date : Nat) : Bool :=
  (s.dailyChallenges u date).completed

def getTotalUsers (s : ContractState) : Nat := s.totalUsers

def getTotalGames (s : ContractState) : Nat := s.totalGames

/-- getUserRank: 0 for an unregistered identity, otherwise one plus the
number of entries of the address array that belong to a different identity
with strictly more points. -/
def getUserRank (s : ContractState) (u : Address) : Nat :=
  if (s.users u).existsFlag = false then 0
  else 1 + s.userAddresses.countP
    (fun a => !(a == u) && decide ((s.users u).totalPoints < (s.users a).totalPoints))

/-- The two mutating operations, each carrying its block timestamp. -/
inductive Op where
  | register (sender : Address) (name : String) (now : Nat)
  | record (sender : Address) (won : Bool) (difficulty : Nat)
      (timeSpent : Nat) (isDaily : Bool) (now : Nat)

/-- Dispatch one operation. -/
def applyOp (s : ContractState) : Op → Except GameError ContractState
  | .register sender name now => registerUser s sender name now
  | .record sender won d t daily now => recordGame s sender won d t daily now

/-- Transaction semantics: a failed require reverts, leaving the state
exactly as it was. -/
def run (s : ContractState) (op : Op) : ContractState :=
  match applyOp s op with
  | .ok s1 => s1
  | .error _ => s

/-- Run a sequence of transactions. -/
def runAll (s : ContractState) (ops : List Op) : ContractState :=
  ops.foldl run s

/-- Run a sequence of recordGame transactions given by their arguments. -/
def runRecords (s : ContractState) :
    List (Address × Bool × Nat × Nat × Bool × Nat) → ContractState
  | [] => s
  | (u, w, d, t, dc, now) :: rest => runRecords (run s (.record u w d t dc now)) rest

/-- Specification-side insertion into a descending pair list: the new entry
goes after every entry with at least as many points, so ties keep the
earlier entry first. -/
def lbInsert (x : Address × Nat) : List (Address × Nat) → List (Address × Nat)
  | [] => [x]
  | y :: rest => if y.2 < x.2 then x :: y :: rest else y :: lbInsert x rest

/-- Specification-side stable insertion sort, consuming entries in
registration order. -/
def lbSort (l : List (Address × Nat)) : List (Address × Nat) :=
  l.foldl (fun acc x => lbInsert x acc) []

/-- The (identity, points) pairs of the first limit identities in
registration order. -/
def leaderPairs (s : ContractState) (limit : Nat) : List (Address × Nat) :=
  (s.userAddresses.take limit).map (fun a => (a, (s.users a).totalPoints))

/-- Descending order by points over a pair list. -/
def sortedByPointsDesc (l : List (Address × Nat)) : Prop :=
  List.Pairwise (fun x y => y.2 ≤ x.2) l

/-- Well-formedness facts maintained by every reachable state. -/
structure Invariant (s : ContractState) : Prop where
  count_eq : s.totalUsers = s.userAddresses.length
  nodup : s.userAddresses.Nodup
  reg_iff : ∀ a, (s.users a).existsFlag = true ↔ a ∈ s.userAddresses
  default_of_not_reg : ∀ a, (s.users a).existsFlag = false → s.users a = defaultUser
  won_le_played : ∀ a, (s.users a).gamesWon ≤ (s.users a).gamesPlayed

/-- Example history: two registered identities, the second with 50 points. -/
def exOps : List Op :=
  [.register 1 "alice" 0, .register 2 "bob" 0, .record 2 true 0 10 false 5]

/-- Example history: one registered identity with three recorded games. -/
def exOpsHistory : List Op :=
  [.register 1 "alice" 0, .record 1 true 0 30 false 1,
   .record 1 false 1 999 false 2, .record 1 true 2 20 true 3]

/-- Example history: one registered identity with bestTime 30. -/
def exOpsBest : List Op :=
  [.register 1 "alice" 0, .record 1 true 0 30 false 1]

end MatchUp

deriving instance DecidableEq for Except

namespace MatchUp

/-- Claim C4 (counterexample): the timestamps of epoch day 330 and epoch
day 360 fall in distinct real calendar days, yet getCurrentDate maps both
to the bucket 20241201, so the encoding is not collision-free across
distinct days. -/
theorem getCurrentDate_distinct_days_collide :
    getCurrentDate (330 * 86400) = getCurrentDate (360 * 86400) ∧
    (330 * 86400) / 86400 ≠ (360 * 86400) / 86400 ∧
    getCurrentDate (330 * 86400) = 20241201 := by decide

/-- Claim C4 (amended): the bucket depends only on the count of whole days
since the epoch, so two timestamps of the same real UTC day always receive
equal buckets; moreover the bucket is 365-day periodic, hence distinct real
calendar days can share a bucket. -/
theorem getCurrentDate_same_day_stable :
    (∀ t1 t2 : Nat, t1 / 86400 = t2 / 86400 → getCurrentDate t1 = getCurrentDate t2) ∧
    (∀ t : Nat, getCurrentDate (t + 365 * 86400) = getCurrentDate t) := by
  constructor
  · intro t1 t2 h
    simp only [getCurrentDate, h]
  · intro t
    have h : (t + 365 * 86400) / 86400 = t / 86400 + 365 := by omega
    simp only [getCurrentDate, h, Nat.add_mod_right]

/-- Witness for the amended claim C4 at concrete timestamps. -/
theorem getCurrentDate_same_day_stable_witness :
    (100 / 86400 = 200 / 86400 ∧ getCurrentDate 100 = getCurrentDate 200) ∧
    getCurrentDate (7 + 365 * 86400) = getCurrentDate 7 :=
  ⟨⟨by decide, getCurrentDate_same_day_stable.1 100 200 (by decide)⟩,
   getCurrentDate_same_day_stable.2 7⟩

/-- Claim C3: a successful recordGame call persists a GameResult whose
points and time are 0 on a loss regardless of the raw time input, and whose
points equal basePoints(difficulty) times the daily multiplier and whose
time equals the raw input on a win. -/
theorem recordGame_persisted_result (s : ContractState) (sender : Address) (won : Bool)
    (difficulty : Nat) (timeSpent : Nat) (isDaily : Bool) (now : Nat)
    (hreg : (s.users sender).existsFlag = true) (hd : difficulty ≤ 2) :
    ∃ s1, recordGame s sender won difficulty timeSpent isDaily now = .ok s1 ∧
      s1.totalGames = s.totalGames + 1 ∧
      (s1.gameResults s1.totalGames).gameId = s.totalGames + 1 ∧
      (s1.gameResults s1.totalGames).player = sender ∧
      (won = false → (s1.gameResults s1.totalGames).pointsEarned = 0 ∧
        (s1.gameResults s1.totalGames).timeSpent = 0) ∧
      (won = true → (s1.gameResults s1.totalGames).pointsEarned =
          (if difficulty = 0 then 50 else if difficulty = 1 then 100 else 150) *
            (if isDaily then 2 else 1) ∧
        (s1.gameResults s1.totalGames).timeSpent = timeSpent) := by
  have hd2 : ¬ 2 < difficulty := by omega
  cases won <;> cases isDaily <;>
    simp [recordGame, computePoints, hreg, hd2,
      EASY_POINTS, MEDIUM_POINTS, HARD_POINTS, DAILY_MULTIPLIER]

/-- Witness for claim C3: a won hard daily-challenge game at the example
state persists 300 points. -/
theorem recordGame_persisted_result_witness :
    ((runAll initState exOps).users 2).existsFlag = true ∧ (2 : Nat) ≤ 2 ∧
    ∃ s1, recordGame (runAll initState exOps) 2 true 2 25 true 9 = .ok s1 ∧
      s1.totalGames = (runAll initState exOps).totalGames + 1 ∧
      (s1.gameResults s1.totalGames).gameId = (runAll initState exOps).totalGames + 1 ∧
      (s1.gameResults s1.totalGames).player = 2 ∧
      (true = false → (s1.gameResults s1.totalGames).pointsEarned = 0 ∧
        (s1.gameResults s1.totalGames).timeSpent = 0) ∧
      (true = true → (s1.gameResults s1.totalGames).pointsEarned =
          (if (2 : Nat) = 0 then 50 else if (2 : Nat) = 1 then 100 else 150) *
            (if true then 2 else 1) ∧
        (s1.gameResults s1.totalGames).timeSpent = 25) :=
  ⟨by decide, by decide,
   recordGame_persisted_result (runAll initState exOps) 2 true 2 25 true 9
     (by decide) (by decide)⟩

end MatchUp

namespace MatchUp

theorem list_length_le_utf8Go (l : List Char) : l.length ≤ String.utf8ByteSize.go l := by
  induction l with
  | nil => simp [String.utf8ByteSize.go]
  | cons c cs ih =>
    have hpos := c.utf8Size_pos
    simp only [List.length_cons, String.utf8ByteSize.go]
    omega

theorem strLength_le_utf8ByteSize (s : String) : s.length ≤ s.utf8ByteSize := by
  cases s with
  | mk data => simpa [String.length, String.utf8ByteSize] using list_length_le_utf8Go data

theorem utf8ByteSize_eq_zero_of_length_eq_zero (s : String) (h : s.length = 0) :
    s.utf8ByteSize = 0 := by
  cases s with
  | mk data =>
    have hdata : data = [] := List.length_eq_zero.mp (by simpa [String.length] using h)
    simp [String.utf8ByteSize, hdata, String.utf8ByteSize.go]

/-- Claim C6: recordGame rejects an unregistered caller with UserNotFound
and an out-of-range difficulty with InvalidInput, registerUser rejects an
empty or over-long display name with InvalidInput, and every such failed
transaction leaves the whole state unchanged. -/
theorem precondition_failures_leave_state_unchanged (s : ContractState) :
    (∀ (sender : Address) won d t daily now, (s.users sender).existsFlag = false →
      recordGame s sender won d t daily now = .error .UserNotFound ∧
      run s (.record sender won d t daily now) = s) ∧
    (∀ (sender : Address) won d t daily now,
      (s.users sender).existsFlag = true → 2 < d →
      recordGame s sender won d t daily now = .error .InvalidInput ∧
      run s (.record sender won d t daily now) = s) ∧
    (∀ (sender : Address) (name : String) now, name.length = 0 ∨ 50 < name.length →
      registerUser s sender name now = .error .InvalidInput ∧
      run s (.register sender name now) = s) := by
  refine ⟨?_, ?_, ?_⟩
  · intro sender won d t daily now h
    have he : recordGame s sender won d t daily now = .error .UserNotFound := by
      simp [recordGame, h]
    exact ⟨he, by simp [run, applyOp, he]⟩
  · intro sender won d t daily now h hd
    have he : recordGame s sender won d t daily now = .error .InvalidInput := by
      simp [recordGame, h, hd]
    exact ⟨he, by simp [run, applyOp, he]⟩
  · intro sender name now h
    have he : registerUser s sender name now = .error .InvalidInput := by
      rcases h with h0 | h50
      · simp [registerUser, utf8ByteSize_eq_zero_of_length_eq_zero name h0]
      · have hb : 50 < name.utf8ByteSize :=
          lt_of_lt_of_le h50 (strLength_le_utf8ByteSize name)
        by_cases hz : name.utf8ByteSize = 0
        · simp [registerUser, hz]
        · simp [registerUser, hz, hb]
    exact ⟨he, by simp [run, applyOp, he]⟩

/-- Witness for claim C6 at concrete failing inputs. -/
theorem precondition_failures_witness :
    ((initState.users 1).existsFlag = false ∧
      recordGame initState 1 true 0 5 false 0 = .error .UserNotFound ∧
      run initState (.record 1 true 0 5 false 0) = initState) ∧
    (((runAll initState exOps).users 2).existsFlag = true ∧ 2 < 7 ∧
      recordGame (runAll initState exOps) 2 true 7 5 false 0 = .error .InvalidInput ∧
      run (runAll initState exOps) (.record 2 true 7 5 false 0) = runAll initState exOps) ∧
    (("" : String).length = 0 ∨ 50 < ("" : String).length) ∧
    registerUser initState 1 "" 0 = .error .InvalidInput ∧
    run initState (.register 1 "" 0) = initState :=
  ⟨⟨by decide,
    (precondition_failures_leave_state_unchanged initState).1 1 true 0 5 false 0 (by decide)⟩,
   ⟨by decide, by decide,
    (precondition_failures_leave_state_unchanged (runAll initState exOps)).2.1
      2 true 7 5 false 0 (by decide) (by decide)⟩,
   Or.inl (by decide),
   (precondition_failures_leave_state_unchanged initState).2.2 1 "" 0 (Or.inl (by decide))⟩

/-- Claim C7: a second successful register call for an already registered
identity keeps totalUsers and every aggregate field, the address list, and
all other identities unchanged, overwriting only the display name. -/
theorem registerUser_existing_only_renames (s : ContractState) (u : Address)
    (name : String) (now : Nat)
    (hreg : (s.users u).existsFlag = true)
    (h0 : name.utf8ByteSize ≠ 0) (h50 : name.utf8ByteSize ≤ 50) :
    ∃ s1, registerUser s u name now = .ok s1 ∧
      s1.totalUsers = s.totalUsers ∧
      (s1.users u).displayName = name ∧
      (s1.users u).totalPoints = (s.users u).totalPoints ∧
      (s1.users u).gamesPlayed = (s.users u).gamesPlayed ∧
      (s1.users u).gamesWon = (s.users u).gamesWon ∧
      (s1.users u).bestTime = (s.users u).bestTime ∧
      (s1.users u).joinedAt = (s.users u).joinedAt ∧
      (s1.users u).lastGameAt = (s.users u).lastGameAt ∧
      (s1.users u).existsFlag = (s.users u).existsFlag ∧
      (∀ v, v ≠ u → s1.users v = s.users v) ∧
      s1.userAddresses = s.userAddresses ∧
      s1.totalGames = s.totalGames ∧
      s1.gameResults = s.gameResults ∧
      s1.userGameIds = s.userGameIds ∧
      s1.dailyChallenges = s.dailyChallenges := by
  have h50x : ¬ 50 < name.utf8ByteSize := by omega
  have hflag : ¬ (s.users u).existsFlag = false := by simp [hreg]
  simp only [registerUser, if_neg h0, if_neg h50x, if_neg hflag]
  refine ⟨_, rfl, ?_⟩
  simp [setUser]
  intro v hv hv2
  exact absurd hv2 hv

/-- Witness for claim C7: renaming the registered identity 1. -/
theorem registerUser_existing_only_renames_witness :
    ((runAll initState exOps).users 1).existsFlag = true ∧
    ("carol" : String).utf8ByteSize ≠ 0 ∧ ("carol" : String).utf8ByteSize ≤ 50 ∧
    ∃ s1, registerUser (runAll initState exOps) 1 "carol" 11 = .ok s1 ∧
      s1.totalUsers = (runAll initState exOps).totalUsers ∧
      (s1.users 1).displayName = "carol" ∧
      (s1.users 1).totalPoints = ((runAll initState exOps).users 1).totalPoints ∧
      (s1.users 1).gamesPlayed = ((runAll initState exOps).users 1).gamesPlayed ∧
      (s1.users 1).gamesWon = ((runAll initState exOps).users 1).gamesWon ∧
      (s1.users 1).bestTime = ((runAll initState exOps).users 1).bestTime ∧
      (s1.users 1).joinedAt = ((runAll initState exOps).users 1).joinedAt ∧
      (s1.users 1).lastGameAt = ((runAll initState exOps).users 1).lastGameAt ∧
      (s1.users 1).existsFlag = ((runAll initState exOps).users 1).existsFlag ∧
      (∀ v, v ≠ 1 → s1.users v = (runAll initState exOps).users v) ∧
      s1.userAddresses = (runAll initState exOps).userAddresses ∧
      s1.totalGames = (runAll initState exOps).totalGames ∧
      s1.gameResults = (runAll initState exOps).gameResults ∧
      s1.userGameIds = (runAll initState exOps).userGameIds ∧
      s1.dailyChallenges = (runAll initState exOps).dailyChallenges :=
  ⟨by decide, by decide, by decide,
   registerUser_existing_only_renames (runAll initState exOps) 1 "carol" 11
     (by decide) (by decide) (by decide)⟩

end MatchUp

namespace MatchUp

/-- Effect of one recordGame transaction on one bestTime field: either it
is untouched, or the call was a win by that identity with a positive time
beating (or initialising) the stored best. -/
theorem bestTime_step (s : ContractState) (a u : Address) (w : Bool) (d t : Nat)
    (dc : Bool) (now : Nat) :
    ((run s (.record u w d t dc now)).users a).bestTime = (s.users a).bestTime ∨
    (w = true ∧ a = u ∧ 0 < t ∧
      ((s.users a).bestTime = 0 ∨ t < (s.users a).bestTime) ∧
      ((run s (.record u w d t dc now)).users a).bestTime = t) := by
  by_cases hreg : (s.users u).existsFlag = false
  · left; simp [run, applyOp, recordGame, hreg]
  · by_cases hd : 2 < d
    · left; simp [run, applyOp, recordGame, hreg, hd]
    · by_cases hau : a = u
      · subst hau
        cases w
        · left
          cases dc <;> simp [run, applyOp, recordGame, hreg, hd, setUser]
        · by_cases hcond : 0 < t ∧ ((s.users a).bestTime = 0 ∨ t < (s.users a).bestTime)
          · right
            refine ⟨rfl, rfl, hcond.1, hcond.2, ?_⟩
            cases dc <;> simp [run, applyOp, recordGame, hreg, hd, setUser, hcond]
          · left
            cases dc <;> simp [run, applyOp, recordGame, hreg, hd, setUser, hcond]
      · left
        cases w <;> cases dc <;>
          simp [run, applyOp, recordGame, hreg, hd, setUser, hau]

/-- Over a sequence of recordGame transactions, a nonzero bestTime never
increases and never returns to zero. -/
theorem bestTime_runRecords_le (l : List (Address × Bool × Nat × Nat × Bool × Nat))
    (s : ContractState) (a : Address) (h : (s.users a).bestTime ≠ 0) :
    ((runRecords s l).users a).bestTime ≤ (s.users a).bestTime ∧
    ((runRecords s l).users a).bestTime ≠ 0 := by
  induction l generalizing s with
  | nil => exact ⟨le_refl _, h⟩
  | cons x rest ih =>
    obtain ⟨u, w, d, t, dc, now⟩ := x
    rcases bestTime_step s a u w d t dc now with heq | ⟨hw, hau, ht, hlt, heq⟩
    · have hrec := ih (run s (.record u w d t dc now)) (by rw [heq]; exact h)
      simp only [runRecords] at hrec ⊢
      exact ⟨le_trans hrec.1 (le_of_eq heq), hrec.2⟩
    · have htlt : t < (s.users a).bestTime := by
        rcases hlt with h0 | h2
        · exact absurd h0 h
        · exact h2
      have h1 : ((run s (.record u w d t dc now)).users a).bestTime ≠ 0 := by
        rw [heq]; omega
      have hrec := ih (run s (.record u w d t dc now)) h1
      simp only [runRecords] at hrec ⊢
      refine ⟨le_trans hrec.1 ?_, hrec.2⟩
      rw [heq]; omega

/-- Claim C9: bestTime is never changed by a lost game or by a zero time
spent; over any sequence of recordGame transactions a nonzero bestTime is
non-increasing; and every single-step change of a nonzero bestTime is a
strict decrease. -/
theorem bestTime_never_raised :
    (∀ (s : ContractState) (a u : Address) d t dc now,
      ((run s (.record u false d t dc now)).users a).bestTime = (s.users a).bestTime) ∧
    (∀ (s : ContractState) (a u : Address) w d dc now,
      ((run s (.record u w d 0 dc now)).users a).bestTime = (s.users a).bestTime) ∧
    (∀ (s : ContractState) (a : Address)
      (l : List (Address × Bool × Nat × Nat × Bool × Nat)),
      (s.users a).bestTime ≠ 0 →
      ((runRecords s l).users a).bestTime ≤ (s.users a).bestTime ∧
      ((runRecords s l).users a).bestTime ≠ 0) ∧
    (∀ (s : ContractState) (a u : Address) w d t dc now,
      (s.users a).bestTime ≠ 0 →
      ((run s (.record u w d t dc now)).users a).bestTime ≠ (s.users a).bestTime →
      ((run s (.record u w d t dc now)).users a).bestTime < (s.users a).bestTime) := by
  refine ⟨?_, ?_, fun s a l h => bestTime_runRecords_le l s a h, ?_⟩
  · intro s a u d t dc now
    rcases bestTime_step s a u false d t dc now with heq | ⟨hw, _⟩
    · exact heq
    · exact absurd hw (by simp)
  · intro s a u w d dc now
    rcases bestTime_step s a u w d 0 dc now with heq | ⟨_, _, ht, _⟩
    · exact heq
    · exact absurd ht (by simp)
  · intro s a u w d t dc now h hne
    rcases bestTime_step s a u w d t dc now with heq | ⟨_, _, _, hlt, heq⟩
    · exact absurd heq hne
    · rcases hlt with h0 | h2
      · exact absurd h0 h
      · rw [heq]; exact h2

end MatchUp

namespace MatchUp

/-- Witness for claim C9: from a state with bestTime 30, a further win in
10 seconds keeps bestTime positive and not above 30. -/
theorem bestTime_never_raised_witness :
    ((runAll initState exOpsBest).users 1).bestTime ≠ 0 ∧
    ((runRecords (runAll initState exOpsBest) [(1, true, 0, 10, false, 8)]).users 1).bestTime ≤
      ((runAll initState exOpsBest).users 1).bestTime ∧
    ((runRecords (runAll initState exOpsBest) [(1, true, 0, 10, false, 8)]).users 1).bestTime ≠ 0 :=
  ⟨by decide,
   (bestTime_never_raised.2.2.1 (runAll initState exOpsBest) 1
      [(1, true, 0, 10, false, 8)] (by decide)).1,
   (bestTime_never_raised.2.2.1 (runAll initState exOpsBest) 1
      [(1, true, 0, 10, false, 8)] (by decide)).2⟩

end MatchUp

namespace MatchUp

theorem invariant_init : Invariant initState := by
  refine ⟨?_, ?_, ?_, ?_, ?_⟩ <;> simp [initState, defaultUser]

theorem run_register_new (s : ContractState) (sender : Address) (name : String) (now : Nat)
    (h0 : ¬ name.utf8ByteSize = 0) (h50 : ¬ 50 < name.utf8ByteSize)
    (hex : (s.users sender).existsFlag = false) :
    run s (.register sender name now) =
      { s with
        users := setUser s.users sender
          { displayName := name, totalPoints := 0, gamesPlayed := 0, gamesWon := 0,
            bestTime := 0, joinedAt := now, lastGameAt := 0, existsFlag := true },
        userAddresses := s.userAddresses ++ [sender],
        totalUsers := s.totalUsers + 1 } := by
  simp [run, applyOp, registerUser, h0, h50, hex]

theorem run_register_existing (s : ContractState) (sender : Address) (name : String)
    (now : Nat) (h0 : ¬ name.utf8ByteSize = 0) (h50 : ¬ 50 < name.utf8ByteSize)
    (hex : ¬ (s.users sender).existsFlag = false) :
    run s (.register sender name now) =
      { s with
        users := setUser s.users sender { s.users sender with displayName := name } } := by
  simp [run, applyOp, registerUser, h0, h50, hex]

theorem invariant_run (s : ContractState) (op : Op) (h : Invariant s) :
    Invariant (run s op) := by
  cases op with
  | register sender name now =>
    by_cases h0 : name.utf8ByteSize = 0
    · simpa [run, applyOp, registerUser, h0] using h
    · by_cases h50 : 50 < name.utf8ByteSize
      · simpa [run, applyOp, registerUser, h0, h50] using h
      · by_cases hex : (s.users sender).existsFlag = false
        · have hmem : sender ∉ s.userAddresses := by
            intro hm
            have := (h.reg_iff sender).mpr hm
            rw [hex] at this
            exact absurd this (by simp)
          rw [run_register_new s sender name now h0 h50 hex]
          refine ⟨?_, ?_, ?_, ?_, ?_⟩
          · simp [h.count_eq]
          · simp [List.nodup_append, h.nodup, hmem]
          · intro a
            by_cases ha : a = sender
            · subst ha; simp [setUser]
            · simp only [setUser, if_neg ha, List.mem_append, List.mem_singleton]
              rw [h.reg_iff a]
              simp [ha]
          · intro a hflag
            by_cases ha : a = sender
            · subst ha; simp [setUser] at hflag
            · simp only [setUser, if_neg ha] at hflag ⊢
              exact h.default_of_not_reg a hflag
          · intro a
            by_cases ha : a = sender
            · subst ha; simp [setUser]
            · simp only [setUser, if_neg ha]
              exact h.won_le_played a
        · rw [run_register_existing s sender name now h0 h50 hex]
          refine ⟨h.count_eq, h.nodup, ?_, ?_, ?_⟩
          · intro a
            by_cases ha : a = sender
            · subst ha; simp only [setUser, if_pos rfl]
              exact h.reg_iff a
            · simp only [setUser, if_neg ha]
              exact h.reg_iff a
          · intro a hflag
            by_cases ha : a = sender
            · subst ha; simp only [setUser, if_pos rfl] at hflag
              exact absurd hflag (by simpa using hex)
            · simp only [setUser, if_neg ha] at hflag ⊢
              exact h.default_of_not_reg a hflag
          · intro a
            by_cases ha : a = sender
            · subst ha; simp only [setUser, if_pos rfl]
              exact h.won_le_played a
            · simp only [setUser, if_neg ha]
              exact h.won_le_played a
  | record sender w d t dc now =>
    by_cases hreg : (s.users sender).existsFlag = false
    · simpa [run, applyOp, recordGame, hreg] using h
    · by_cases hd : 2 < d
      · simpa [run, applyOp, recordGame, hreg, hd] using h
      · have haddr : (run s (.record sender w d t dc now)).userAddresses = s.userAddresses := by
          cases w <;> cases dc <;> simp [run, applyOp, recordGame, hreg, hd]
        have htot : (run s (.record sender w d t dc now)).totalUsers = s.totalUsers := by
          cases w <;> cases dc <;> simp [run, applyOp, recordGame, hreg, hd]
        have husers : ∀ a, a ≠ sender →
            (run s (.record sender w d t dc now)).users a = s.users a := by
          intro a ha
          cases w <;> cases dc <;>
            simp [run, applyOp, recordGame, hreg, hd, setUser, ha]
        have hflagkeep : ((run s (.record sender w d t dc now)).users sender).existsFlag =
            (s.users sender).existsFlag := by
          cases w <;> cases dc <;> simp [run, applyOp, recordGame, hreg, hd, setUser]
        have hwp : ((run s (.record sender w d t dc now)).users sender).gamesWon ≤
            ((run s (.record sender w d t dc now)).users sender).gamesPlayed := by
          have hb := h.won_le_played sender
          cases w <;> cases dc <;>
            simp [run, applyOp, recordGame, hreg, hd, setUser] <;> omega
        refine ⟨?_, ?_, ?_, ?_, ?_⟩
        · rw [htot, haddr]; exact h.count_eq
        · rw [haddr]; exact h.nodup
        · intro a
          rw [haddr]
          by_cases ha : a = sender
          · subst ha; rw [hflagkeep]; exact h.reg_iff a
          · rw [husers a ha]; exact h.reg_iff a
        · intro a hflag
          by_cases ha : a = sender
          · subst ha; rw [hflagkeep] at hflag
            exact absurd hflag (by simpa using hreg)
          · rw [husers a ha] at hflag ⊢
            exact h.default_of_not_reg a hflag
        · intro a
          by_cases ha : a = sender
          · subst ha; exact hwp
          · rw [husers a ha]; exact h.won_le_played a

theorem invariant_foldl (ops : List Op) (s : ContractState) (h : Invariant s) :
    Invariant (ops.foldl run s) := by
  induction ops generalizing s with
  | nil => exact h
  | cons op rest ih => exact ih _ (invariant_run s op h)

theorem invariant_runAll (ops : List Op) : Invariant (runAll initState ops) :=
  invariant_foldl ops initState invariant_init

/-- Claim C8: after every sequence of register and recordGame transactions
from the initial state, every user record satisfies that games won never
exceeds games played. -/
theorem gamesWon_le_gamesPlayed (ops : List Op) (a : Address) :
    ((runAll initState ops).users a).gamesWon ≤
      ((runAll initState ops).users a).gamesPlayed :=
  (invariant_runAll ops).won_le_played a

/-- Claim C10: getUser is a total read-only query returning the stored
record for every identity, and on every reachable state an identity whose
existence flag is false carries the all-zero default record, so the
not-found case is encoded in-band by the flag. -/
theorem getUser_total_inband_default (ops : List Op) (a : Address) :
    getUser (runAll initState ops) a = (runAll initState ops).users a ∧
    ((getUser (runAll initState ops) a).existsFlag = false →
      getUser (runAll initState ops) a = defaultUser) :=
  ⟨rfl, fun hflag => (invariant_runAll ops).default_of_not_reg a hflag⟩

/-- Witness for claim C10: at the example state, the unregistered identity
7 yields the default record. -/
theorem getUser_total_inband_default_witness :
    getUser (runAll initState exOps) 7 = (runAll initState exOps).users 7 ∧
    (getUser (runAll initState exOps) 7).existsFlag = false ∧
    getUser (runAll initState exOps) 7 = defaultUser :=
  ⟨(getUser_total_inband_default exOps 7).1, by decide,
   (getUser_total_inband_default exOps 7).2 (by decide)⟩

end MatchUp

namespace MatchUp

/-- Claim C5: getUserGames fails with OutOfRange exactly when the offset is
at or past the end of the game-id list of the identity; otherwise it
returns the GameResults from index offset up to min(offset+limit, length)
in original recording order, silently clipping an over-long limit. -/
theorem getUserGames_pagination (s : ContractState) (u : Address) (offset limit : Nat) :
    (getUserGames s u offset limit = .error .OutOfRange ↔
      (s.userGameIds u).length ≤ offset) ∧
    (∀ l, getUserGames s u offset limit = .ok l →
      l.length = min limit ((s.userGameIds u).length - offset) ∧
      ∀ i (dflt : GameResult), i < l.length →
        l.getD i dflt = s.gameResults ((s.userGameIds u).getD (offset + i) 0)) := by
  by_cases ho : offset < (s.userGameIds u).length
  · constructor
    · simp only [getUserGames, if_pos ho]
      constructor
      · intro hcontra; exact absurd hcontra (by simp)
      · intro hle; omega
    · intro l hl
      simp only [getUserGames, if_pos ho] at hl
      injection hl with hl
      subst hl
      constructor
      · simp only [List.length_map, List.length_take, List.length_drop]
        by_cases hc : (s.userGameIds u).length < offset + limit
        · rw [if_pos hc]; omega
        · rw [if_neg hc]; omega
      · intro i dflt hi
        simp only [List.length_map, List.length_take, List.length_drop] at hi
        have hik : i < (if (s.userGameIds u).length < offset + limit
              then (s.userGameIds u).length else offset + limit) - offset ∧
            offset + i < (s.userGameIds u).length := by
          by_cases hc : (s.userGameIds u).length < offset + limit
          · rw [if_pos hc] at hi ⊢; omega
          · rw [if_neg hc] at hi ⊢; omega
        rw [List.getD_eq_getElem?_getD, List.getElem?_map,
          List.getElem?_take_of_lt hik.1, List.getElem?_drop,
          List.getElem?_eq_getElem hik.2,
          List.getD_eq_getElem?_getD, List.getElem?_eq_getElem hik.2]
        simp
  · constructor
    · simp only [getUserGames, if_neg ho]
      constructor
      · intro _; omega
      · intro _; trivial
    · intro l hl
      simp only [getUserGames, if_neg ho] at hl
      exact absurd hl (by simp)

/-- Witness for claim C5: identity 1 has three recorded games, so offset 5
is rejected with OutOfRange. -/
theorem getUserGames_pagination_witness :
    ((runAll initState exOpsHistory).userGameIds 1).length ≤ 5 ∧
    getUserGames (runAll initState exOpsHistory) 1 5 10 = .error .OutOfRange :=
  ⟨by decide,
   (getUserGames_pagination (runAll initState exOpsHistory) 1 5 10).1.mpr (by decide)⟩

end MatchUp

namespace MatchUp

/-- Claim C2: getUserRank returns 0 for an unregistered identity and, for a
registered one, 1 plus the number of other registered identities whose
total points strictly exceed its own; hence registered identities with
equal points share the same rank number. -/
theorem getUserRank_dense (s : ContractState)
    (hnd : s.userAddresses.Nodup)
    (hreg : ∀ a : Address, (s.users a).existsFlag = true ↔ a ∈ s.userAddresses) :
    (∀ u : Address, (s.users u).existsFlag = false → getUserRank s u = 0) ∧
    (∀ u : Address, (s.users u).existsFlag = true →
      getUserRank s u = 1 + (s.userAddresses.toFinset.filter
        (fun a => a ≠ u ∧
          (s.users u).totalPoints < (s.users a).totalPoints)).card) ∧
    (∀ u v : Address, (s.users u).existsFlag = true → (s.users v).existsFlag = true →
      (s.users u).totalPoints = (s.users v).totalPoints →
      getUserRank s u = getUserRank s v) := by
  refine ⟨?_, ?_, ?_⟩
  · intro u hu
    simp [getUserRank, hu]
  · intro u hu
    have hu0 : ¬ (s.users u).existsFlag = false := by simp [hu]
    rw [getUserRank, if_neg hu0]
    congr 1
    rw [List.countP_eq_length_filter]
    have hfn : (s.userAddresses.filter
        (fun a => !(a == u) &&
          decide ((s.users u).totalPoints < (s.users a).totalPoints))).Nodup :=
      hnd.filter _
    rw [← List.toFinset_card_of_nodup hfn, List.toFinset_filter]
    congr 1
    apply Finset.filter_congr
    intro a _
    simp
  · intro u v hu hv hpts
    have hu0 : ¬ (s.users u).existsFlag = false := by simp [hu]
    have hv0 : ¬ (s.users v).existsFlag = false := by simp [hv]
    rw [getUserRank, if_neg hu0, getUserRank, if_neg hv0]
    congr 1
    congr 1
    funext a
    by_cases hau : a = u
    · subst hau
      simp [hpts]
    · by_cases hav : a = v
      · subst hav
        simp [hpts, hau]
      · have h1 : (a == u) = false := by simp [hau]
        have h2 : (a == v) = false := by simp [hav]
        rw [hpts, h1, h2]

/-- Witness for claim C2 at the example state: identity 5 is unregistered
and ranks 0; identity 2 holds the top score and ranks 1 + 0. -/
theorem getUserRank_dense_witness :
    getUserRank (runAll initState exOps) 5 = 0 ∧
    getUserRank (runAll initState exOps) 2 =
      1 + ((runAll initState exOps).userAddresses.toFinset.filter
        (fun a => a ≠ 2 ∧
          ((runAll initState exOps).users 2).totalPoints <
            ((runAll initState exOps).users a).totalPoints)).card :=
  ⟨(getUserRank_dense (runAll initState exOps) (invariant_runAll exOps).nodup
      (invariant_runAll exOps).reg_iff).1 5 (by decide),
   (getUserRank_dense (runAll initState exOps) (invariant_runAll exOps).nodup
      (invariant_runAll exOps).reg_iff).2.1 2 (by decide)⟩

end MatchUp

namespace MatchUp

theorem mem_lbInsert (x z : Address × Nat) (S : List (Address × Nat)) :
    z ∈ lbInsert x S ↔ z = x ∨ z ∈ S := by
  induction S with
  | nil => simp [lbInsert]
  | cons y rest ih =>
    by_cases h : y.2 < x.2
    · simp [lbInsert, h]
    · simp only [lbInsert, if_neg h, List.mem_cons, ih]
      tauto

theorem lbInsert_length (x : Address × Nat) (S : List (Address × Nat)) :
    (lbInsert x S).length = S.length + 1 := by
  induction S with
  | nil => simp [lbInsert]
  | cons y rest ih =>
    by_cases h : y.2 < x.2 <;> simp [lbInsert, h, ih]

theorem sorted_lbInsert (x : Address × Nat) (S : List (Address × Nat))
    (hs : sortedByPointsDesc S) : sortedByPointsDesc (lbInsert x S) := by
  induction S with
  | nil => simp [lbInsert, sortedByPointsDesc]
  | cons y rest ih =>
    simp only [sortedByPointsDesc, List.pairwise_cons] at hs ⊢
    obtain ⟨hy, hrest⟩ := hs
    by_cases h : y.2 < x.2
    · simp only [lbInsert, if_pos h, List.pairwise_cons]
      refine ⟨?_, ?_, hrest⟩
      · intro z hz
        rcases List.mem_cons.mp hz with rfl | hz'
        · omega
        · have := hy z hz'; omega
      · exact hy
    · simp only [lbInsert, if_neg h, List.pairwise_cons]
      constructor
      · intro z hz
        rcases (mem_lbInsert x z rest).mp hz with rfl | hz'
        · omega
        · exact hy z hz'
      · have := ih hrest
        simpa [sortedByPointsDesc] using this

theorem lbInsert_perm (x : Address × Nat) (S : List (Address × Nat)) :
    List.Perm (lbInsert x S) (x :: S) := by
  induction S with
  | nil => simp [lbInsert]
  | cons y rest ih =>
    by_cases h : y.2 < x.2
    · simp [lbInsert, h]
    · simp only [lbInsert, if_neg h]
      exact List.Perm.trans (List.Perm.cons y ih) (List.Perm.swap x y rest)

theorem lbInsert_append_of_le (a : Address) (pts : Nat) (S : List (Address × Nat))
    (h : ∀ z ∈ S, pts ≤ z.2) : lbInsert (a, pts) S = S ++ [(a, pts)] := by
  induction S with
  | nil => simp [lbInsert]
  | cons y rest ih =>
    have hy : pts ≤ y.2 := h y (by simp)
    have hlt : ¬ y.2 < (a, pts).2 := by simp; omega
    simp only [lbInsert, if_neg hlt]
    rw [ih (fun z hz => h z (by simp [hz]))]
    simp

theorem lbInsert_append_lt (x y : Address × Nat) (S : List (Address × Nat))
    (h : y.2 < x.2) :
    lbInsert x (S ++ [y]) = lbInsert x S ++ [y] := by
  induction S with
  | nil => simp [lbInsert, h]
  | cons z rest ih =>
    by_cases hz : z.2 < x.2 <;> simp [lbInsert, hz, ih]

theorem filter_lbInsert (x : Address × Nat) (v : Nat) (S : List (Address × Nat))
    (hs : sortedByPointsDesc S) :
    (lbInsert x S).filter (fun z => z.2 == v) =
      S.filter (fun z => z.2 == v) ++ (if x.2 = v then [x] else []) := by
  induction S with
  | nil =>
    by_cases hxv : x.2 = v <;> simp [lbInsert, hxv]
  | cons y rest ih =>
    simp only [sortedByPointsDesc, List.pairwise_cons] at hs
    obtain ⟨hy, hrest⟩ := hs
    by_cases hlt : y.2 < x.2
    · simp only [lbInsert, if_pos hlt]
      by_cases hxv : x.2 = v
      · have hnil : (y :: rest).filter (fun z : Address × Nat => z.2 == v) = [] := by
          apply List.filter_eq_nil_iff.mpr
          intro z hz
          rcases List.mem_cons.mp hz with rfl | hz'
          · simp; omega
          · have := hy z hz'; simp; omega
        rw [List.filter_cons_of_pos (by simp [hxv]), hnil]
        simp [hxv]
      · rw [List.filter_cons_of_neg (by simp [hxv])]
        simp [hxv]
    · simp only [lbInsert, if_neg hlt]
      by_cases hyv : y.2 = v
      · rw [List.filter_cons_of_pos (by simp [hyv]),
          List.filter_cons_of_pos (by simp [hyv]), ih hrest]
        simp
      · rw [List.filter_cons_of_neg (by simp [hyv]),
          List.filter_cons_of_neg (by simp [hyv]), ih hrest]

theorem lbSortAux_sorted (l : List (Address × Nat)) (acc : List (Address × Nat))
    (ha : sortedByPointsDesc acc) :
    sortedByPointsDesc (l.foldl (fun acc x => lbInsert x acc) acc) := by
  induction l generalizing acc with
  | nil => exact ha
  | cons x rest ih => exact ih _ (sorted_lbInsert x acc ha)

theorem lbSort_sorted (l : List (Address × Nat)) : sortedByPointsDesc (lbSort l) :=
  lbSortAux_sorted l [] (by simp [sortedByPointsDesc])

theorem lbSortAux_perm (l : List (Address × Nat)) (acc : List (Address × Nat)) :
    List.Perm (l.foldl (fun acc x => lbInsert x acc) acc) (acc ++ l) := by
  induction l generalizing acc with
  | nil => simp
  | cons x rest ih =>
    refine List.Perm.trans (ih (lbInsert x acc)) ?_
    refine List.Perm.trans (List.Perm.append_right rest (lbInsert_perm x acc)) ?_
    exact List.perm_middle.symm

theorem lbSort_perm (l : List (Address × Nat)) : List.Perm (lbSort l) l :=
  lbSortAux_perm l []

theorem lbSort_length (l : List (Address × Nat)) : (lbSort l).length = l.length :=
  (lbSort_perm l).length_eq

theorem lbSortAux_filter (v : Nat) (l : List (Address × Nat))
    (acc : List (Address × Nat)) (ha : sortedByPointsDesc acc) :
    (l.foldl (fun acc x => lbInsert x acc) acc).filter (fun z => z.2 == v) =
      acc.filter (fun z => z.2 == v) ++ l.filter (fun z => z.2 == v) := by
  induction l generalizing acc with
  | nil => simp
  | cons x rest ih =>
    rw [List.foldl_cons, ih _ (sorted_lbInsert x acc ha), filter_lbInsert x v acc ha]
    by_cases hxv : x.2 = v
    · rw [List.filter_cons_of_pos (by simp [hxv])]
      simp [hxv]
    · rw [List.filter_cons_of_neg (by simp [hxv])]
      simp [hxv]

/-- Stability of the specification-side sort: for each points value, the
entries carrying it appear in the sorted output in their original order. -/
theorem lbSort_filter (v : Nat) (l : List (Address × Nat)) :
    (lbSort l).filter (fun z => z.2 == v) = l.filter (fun z => z.2 == v) := by
  have := lbSortAux_filter v l [] (by simp [sortedByPointsDesc])
  simpa [lbSort] using this

end MatchUp

namespace MatchUp

theorem getD_append_at_length {α : Type} (l1 l2 : List α) (d : α) :
    (l1 ++ l2).getD l1.length d = l2.getD 0 d := by
  rw [List.getD_eq_getElem?_getD, List.getElem?_append_right (Nat.le_refl _)]
  simp [List.getD_eq_getElem?_getD]

theorem set_append_at_length {α : Type} (l1 l2 : List α) (x : α) :
    (l1 ++ l2).set l1.length x = l1 ++ l2.set 0 x := by
  rw [List.set_append_right _ _ (Nat.le_refl _)]
  simp

theorem set_append_cons_succ {α : Type} (l1 : List α) (b : α) (l2 : List α) (x : α) :
    (l1 ++ b :: l2).set (l1.length + 1) x = l1 ++ b :: l2.set 0 x := by
  rw [List.set_append_right _ _ (by omega)]
  have h1 : l1.length + 1 - l1.length = 1 := by omega
  rw [h1, List.set_cons_succ]

/-- The inner shift loop followed by the final store behaves exactly like
the specification-side stable insertion into the sorted prefix. -/
theorem lbStep_spec (len : Nat) (a : Address) (pts : Nat)
    (S : List (Address × Nat)) (tu_r : List Address) (tp_r : List Nat)
    (hs : sortedByPointsDesc S) (hlen : S.length < len)
    (hur : tu_r.length = len - S.length) (hpr : tp_r.length = len - S.length) :
    lbStep len a pts S.length (S.map Prod.fst ++ tu_r) (S.map Prod.snd ++ tp_r) =
      ((lbInsert (a, pts) S).map Prod.fst ++ tu_r.tail,
       (lbInsert (a, pts) S).map Prod.snd ++ tp_r.tail) := by
  induction S using List.reverseRecOn generalizing tu_r tp_r with
  | nil =>
    cases tu_r with
    | nil => simp at hur; omega
    | cons t0 tr =>
      cases tp_r with
      | nil => simp at hpr; omega
      | cons p0 pr =>
        simp only [List.length_nil] at hlen
        simp [lbStep, lbShift, lbInsert, hlen]
  | append_singleton S' y ih =>
    have hpw := hs
    simp only [sortedByPointsDesc, List.pairwise_append, List.pairwise_cons] at hpw
    have hsorted' : sortedByPointsDesc S' := hpw.1
    have hyS' : ∀ z ∈ S', y.2 ≤ z.2 := by
      intro z hz
      have := hpw.2.2 z hz y (by simp)
      exact this
    simp only [List.length_append, List.length_cons, List.length_nil] at hlen ⊢
    simp only [List.length_append, List.length_cons, List.length_nil] at hur hpr
    cases tu_r with
    | nil => simp at hur; omega
    | cons t0 tr =>
    cases tp_r with
    | nil => simp at hpr; omega
    | cons p0 pr =>
    simp only [List.map_append, List.map_cons, List.map_nil, List.append_assoc,
      List.singleton_append]
    have hnf : (S'.map Prod.fst).length = S'.length := List.length_map _ _
    have hns : (S'.map Prod.snd).length = S'.length := List.length_map _ _
    by_cases hc : y.2 < pts
    · -- the new score strictly beats the last prefix entry: one shift step
      have hgetD : (S'.map Prod.snd ++ y.2 :: p0 :: pr).getD S'.length 0 = y.2 := by
        rw [← hns, getD_append_at_length]
        rfl
      have hsetu : (S'.map Prod.fst ++ y.1 :: t0 :: tr).set (S'.length + 1)
          ((S'.map Prod.fst ++ y.1 :: t0 :: tr).getD S'.length 0) =
          S'.map Prod.fst ++ y.1 :: y.1 :: tr := by
        have hg : (S'.map Prod.fst ++ y.1 :: t0 :: tr).getD S'.length 0 = y.1 := by
          rw [← hnf, getD_append_at_length]
          rfl
        rw [hg, ← hnf, set_append_cons_succ]
        rfl
      have hsetp : (S'.map Prod.snd ++ y.2 :: p0 :: pr).set (S'.length + 1)
          ((S'.map Prod.snd ++ y.2 :: p0 :: pr).getD S'.length 0) =
          S'.map Prod.snd ++ y.2 :: y.2 :: pr := by
        rw [hgetD, ← hns, set_append_cons_succ]
        rfl
      have hlt2 : S'.length + 1 < len := hlen
      have hshift : lbShift len pts (S'.length + 1)
          (S'.map Prod.fst ++ y.1 :: t0 :: tr) (S'.map Prod.snd ++ y.2 :: p0 :: pr) =
          lbShift len pts S'.length
            (S'.map Prod.fst ++ y.1 :: y.1 :: tr) (S'.map Prod.snd ++ y.2 :: y.2 :: pr) := by
        rw [lbShift]
        rw [if_pos (by rw [hgetD]; exact hc), if_pos hlt2, if_pos hlt2, hsetu, hsetp]
      have hstep : lbStep len a pts (S'.length + 1)
          (S'.map Prod.fst ++ y.1 :: t0 :: tr) (S'.map Prod.snd ++ y.2 :: p0 :: pr) =
          lbStep len a pts S'.length
            (S'.map Prod.fst ++ y.1 :: y.1 :: tr) (S'.map Prod.snd ++ y.2 :: y.2 :: pr) := by
        simp only [lbStep, hshift]
      rw [hstep]
      have hih := ih (y.1 :: y.1 :: tr) (y.2 :: y.2 :: pr) hsorted'
        (by omega)
        (by simp at hur ⊢; omega)
        (by simp at hpr ⊢; omega)
      rw [hih]
      rw [lbInsert_append_lt (a, pts) y S' hc]
      simp
    · -- the last prefix entry is at least as large: store right after it
      have hge : ∀ z ∈ S' ++ [y], pts ≤ z.2 := by
        intro z hz
        rcases List.mem_append.mp hz with hz' | hz''
        · have h1 := hyS' z hz'
          omega
        · have : z = y := by simpa using hz''
          subst this
          omega
      have hgetD : (S'.map Prod.snd ++ y.2 :: p0 :: pr).getD S'.length 0 = y.2 := by
        rw [← hns, getD_append_at_length]
        rfl
      have hshift : lbShift len pts (S'.length + 1)
          (S'.map Prod.fst ++ y.1 :: t0 :: tr) (S'.map Prod.snd ++ y.2 :: p0 :: pr) =
          (S'.map Prod.fst ++ y.1 :: t0 :: tr, S'.map Prod.snd ++ y.2 :: p0 :: pr,
            S'.length + 1) := by
        rw [lbShift, if_neg (by rw [hgetD]; omega)]
      have hlt2 : S'.length + 1 < len := hlen
      have hsetu : (S'.map Prod.fst ++ y.1 :: t0 :: tr).set (S'.length + 1) a =
          S'.map Prod.fst ++ y.1 :: a :: tr := by
        rw [← hnf, set_append_cons_succ]
        rfl
      have hsetp : (S'.map Prod.snd ++ y.2 :: p0 :: pr).set (S'.length + 1) pts =
          S'.map Prod.snd ++ y.2 :: pts :: pr := by
        rw [← hns, set_append_cons_succ]
        rfl
      rw [lbStep, hshift]
      simp only [if_pos hlt2, hsetu, hsetp]
      rw [lbInsert_append_of_le a pts (S' ++ [y]) hge]
      simp

end MatchUp

namespace MatchUp

/-- The outer leaderboard loop computes the specification-side stable
insertion sort of the first limit registration-ordered entries, with the
unused tail of both arrays still zero. -/
theorem lbMain_spec (users : Address → User) (limit len : Nat) :
    ∀ (rest : List Address) (i : Nat) (S : List (Address × Nat)),
    sortedByPointsDesc S → S.length = i → i ≤ len →
    min (i + rest.length) limit = len →
    lbMain users limit len rest i
      (S.map Prod.fst ++ List.replicate (len - i) 0)
      (S.map Prod.snd ++ List.replicate (len - i) 0) =
      ((((rest.take (limit - i)).map (fun b => (b, (users b).totalPoints))).foldl
          (fun acc x => lbInsert x acc) S).map Prod.fst,
       (((rest.take (limit - i)).map (fun b => (b, (users b).totalPoints))).foldl
          (fun acc x => lbInsert x acc) S).map Prod.snd) := by
  intro rest
  induction rest with
  | nil =>
    intro i S hs hi hile hmin
    have hieq : i = len := by
      simp only [List.length_nil] at hmin
      omega
    have hrep : len - i = 0 := by omega
    simp [lbMain, hrep]
  | cons b rest' ih =>
    intro i S hs hi hile hmin
    by_cases hib : i < limit
    · have hilen : i < len := by
        simp only [List.length_cons] at hmin
        omega
      simp only [lbMain, if_pos hib]
      subst hi
      have happly := lbStep_spec len b (users b).totalPoints S
        (List.replicate (len - S.length) 0) (List.replicate (len - S.length) 0)
        hs hilen (by simp) (by simp)
      rw [happly]
      have htail : (List.replicate (len - S.length) (0 : Nat)).tail =
          List.replicate (len - (S.length + 1)) 0 := by
        cases hc : len - S.length with
        | zero => omega
        | succ k =>
          simp [hc, List.replicate_succ]
          omega
      rw [htail]
      have hrec := ih (S.length + 1) (lbInsert (b, (users b).totalPoints) S)
        (sorted_lbInsert _ _ hs)
        (lbInsert_length _ _)
        (by omega)
        (by simp only [List.length_cons] at hmin; omega)
      dsimp only
      rw [hrec]
      have htake : (b :: rest').take (limit - S.length) =
          b :: rest'.take (limit - (S.length + 1)) := by
        have hpos : limit - S.length = (limit - (S.length + 1)) + 1 := by omega
        rw [hpos]
        rfl
      rw [htake]
      rfl
    · have hieq : i = len := by
        simp only [List.length_cons] at hmin
        omega
      have hlim : limit - i = 0 := by
        simp only [List.length_cons] at hmin
        omega
      have hrep : len - i = 0 := by omega
      simp [lbMain, hib, hlim, hrep]

end MatchUp

namespace MatchUp

/-- Claim C1 (counterexample): with two registered identities, the first
with 0 points and the second with 50, getLeaderboard(1) returns the
earlier-registered identity 1 with 0 points and omits the top-scoring
registered identity 2, because the scan stops after the first limit
registration-ordered identities. -/
theorem getLeaderboard_counterexample :
    getLeaderboard (runAll initState exOps) 1 = .ok ([1], [0]) ∧
    ((runAll initState exOps).users 2).existsFlag = true ∧
    ((runAll initState exOps).users 2).totalPoints = 50 ∧
    ((runAll initState exOps).users 1).totalPoints = 0 ∧
    (2 : Address) ∈ (runAll initState exOps).userAddresses ∧
    (2 : Address) ∉ [(1 : Address)] := by decide

/-- Claim C1 (amended): for a state whose user counter matches the address
list and a limit in 1..100, getLeaderboard returns exactly the stable
insertion sort of the first limit registration-ordered identities: length
min(limit, totalUsers), descending by points, a permutation of that
prefix, and each points value keeping registration order. -/
theorem getLeaderboard_stable_sort (s : ContractState)
    (hwf : s.totalUsers = s.userAddresses.length) (limit : Nat)
    (h1 : 0 < limit) (h2 : limit ≤ 100) :
    getLeaderboard s limit =
      .ok ((lbSort (leaderPairs s limit)).map Prod.fst,
           (lbSort (leaderPairs s limit)).map Prod.snd) ∧
    (lbSort (leaderPairs s limit)).length = min limit s.totalUsers ∧
    sortedByPointsDesc (lbSort (leaderPairs s limit)) ∧
    List.Perm (lbSort (leaderPairs s limit)) (leaderPairs s limit) ∧
    ∀ v, (lbSort (leaderPairs s limit)).filter (fun z => z.2 == v) =
      (leaderPairs s limit).filter (fun z => z.2 == v) := by
  have hlen : (if s.totalUsers < limit then s.totalUsers else limit) =
      min (0 + s.userAddresses.length) limit := by
    rw [hwf]
    by_cases hc : s.userAddresses.length < limit
    · rw [if_pos hc]; omega
    · rw [if_neg hc]; omega
  refine ⟨?_, ?_, lbSort_sorted _, lbSort_perm _, fun v => lbSort_filter v _⟩
  · have hcond : (0 < limit ∧ limit ≤ 100) := ⟨h1, h2⟩
    simp only [getLeaderboard, if_pos hcond]
    have hmain := lbMain_spec s.users limit
      (if s.totalUsers < limit then s.totalUsers else limit) s.userAddresses 0 []
      (by simp [sortedByPointsDesc]) rfl (Nat.zero_le _) hlen.symm
    simp only [List.map_nil, List.nil_append, Nat.sub_zero] at hmain
    rw [hmain]
    rfl
  · rw [lbSort_length]
    simp only [leaderPairs, List.length_map, List.length_take]
    omega

/-- Witness for the amended claim C1 at the example state with limit 2. -/
theorem getLeaderboard_stable_sort_witness :
    (runAll initState exOps).totalUsers = (runAll initState exOps).userAddresses.length ∧
    (0 : Nat) < 2 ∧ (2 : Nat) ≤ 100 ∧
    (getLeaderboard (runAll initState exOps) 2 =
        .ok ((lbSort (leaderPairs (runAll initState exOps) 2)).map Prod.fst,
             (lbSort (leaderPairs (runAll initState exOps) 2)).map Prod.snd) ∧
      (lbSort (leaderPairs (runAll initState exOps) 2)).length =
        min 2 (runAll initState exOps).totalUsers ∧
      sortedByPointsDesc (lbSort (leaderPairs (runAll initState exOps) 2)) ∧
      List.Perm (lbSort (leaderPairs (runAll initState exOps) 2))
        (leaderPairs (runAll initState exOps) 2) ∧
      ∀ v, (lbSort (leaderPairs (runAll initState exOps) 2)).filter
          (fun z => z.2 == v) =
        (leaderPairs (runAll initState exOps) 2).filter (fun z => z.2 == v)) :=
  ⟨by decide, by decide, by decide,
   getLeaderboard_stable_sort (runAll initState exOps) (by decide) 2
     (by decide) (by decide)⟩

end MatchUp
